import Mathlib

/-!
# Verification of the genkit streaming / flow core

Shallow embedding of the parts of the repository the claims are about:

* `generateStream` and its promise-chain push-to-pull bridge
  (src/js/ai/src/generate.ts, lines 662-733);
* the `GenerateResponse.raw` getter (generate.ts, lines 274-276);
* message assembly and the "at least one message" check in `generate` /
  `toGenerateRequest` (generate.ts, lines 367-428 and 532-639);
* the `/api/streamAction` HTTP handler
  (src/genkit-tools/common/src/server/server.ts, lines 63-77);
* the step-memoization / resume / fan-out engine of `@genkit-ai/flow`,
  which is not among the sources (only flows calling it are), and is
  therefore modelled from the spec.
-/

namespace Genkit

/-! ## Streaming bridge: `generateStream` (generate.ts, lines 662-733)

The source wires a callback-driven producer into a pull stream through a
chain of single-resolution promises:

* `createPromise` (lines 662-670) allocates one pending cell;
* the `streamingCallback` (lines 704-709) resolves the cell currently held
  by the mutable variable `nextChunk` with the chunk and replaces the
  variable with a fresh pending cell;
* the async generator `chunkStream` (lines 693-699) repeatedly awaits the
  cell currently held by `nextChunk`, yields resolved chunks and stops on
  the `null` sentinel;
* on fulfillment of `generate`, the `.then` handler (lines 710-713)
  resolves the current cell with `null` and resolves the final promise.

We model promise cells as an indexed list, the producer and the reader as
processes, and an execution as an arbitrary interleaving of their atomic
events.  Note that `generate` is an `async function`: calling it never
throws synchronously, so the `catch` block at lines 714-721 is unreachable
and a rejection of the promise returned by `generate` is handled by nothing
(the `.then` at line 710 installs no rejection handler).  The model
therefore gives the producer-failure event no observable effect, and the
setup unconditionally resolves the initial promise (line 723 runs
synchronously at the end of the executor). -/

/-- How the promise returned by the wrapped `generate` call eventually
settles: fulfilled with a final response, or rejected. -/
inductive ProducerEnd (β : Type) where
  | success (v : β)
  | failure
  deriving DecidableEq, Repr

/-- One single-resolution cell from `createPromise`.  A resolved value
`none` is the `null` end-of-stream sentinel; `some c` carries a chunk. -/
inductive PromiseVal (α : Type) where
  | pending
  | resolved (v : Option α)
  deriving DecidableEq, Repr

/-- Where the async generator `chunkStream` currently is: not awaiting
(`idle`: before the loop or between a yield and the next `await`),
suspended on the promise cell it read from `nextChunk` (`waiting pid`),
or terminated (`done`). -/
inductive ReaderPhase where
  | idle
  | waiting (pid : Nat)
  | done
  deriving DecidableEq, Repr

/-- The state of one `generateStream` invocation.  `promises` is indexed by
allocation order; `nextChunkVar` is the index currently stored in the
mutable `nextChunk` variable; `remaining`/`producerEnd` script the producer;
`finalPromise` is the `finalPromise` cell (`none` = still pending);
`initialResolved`/`initialRejected` record how the promise returned by
`generateStream` itself settled. -/
structure StreamState (α β : Type) where
  promises : List (PromiseVal α)
  nextChunkVar : Nat
  received : List α
  reader : ReaderPhase
  finalPromise : Option β
  firstChunkSent : Bool
  remaining : List α
  producerEnd : ProducerEnd β
  producerDone : Bool
  initialResolved : Bool
  initialRejected : Bool
  deriving Repr

/-- The executor body of `generateStream` (lines 682-731): allocate the
final promise and the first chunk cell, start `generate` (its callbacks and
settlement become the producer events below), and synchronously resolve the
initial promise with the stream/response pair.  `chunks` and `pend` script
what the wrapped producer will do. -/
def generateStreamSetup (chunks : List α) (pend : ProducerEnd β) : StreamState α β :=
  { promises := [PromiseVal.pending]
    nextChunkVar := 0
    received := []
    reader := ReaderPhase.idle
    finalPromise := none
    firstChunkSent := false
    remaining := chunks
    producerEnd := pend
    producerDone := false
    initialResolved := true
    initialRejected := false }

/-- Atomic events of an execution: a `streamingCallback` invocation
(`emit`), the settlement of the promise returned by `generate` (`finish`),
the reader reaching `await nextChunk` (`readerAwait`), and the reader
resuming from a resolved awaited cell (`readerReceive`). -/
inductive StreamEv where
  | emit
  | finish
  | readerAwait
  | readerReceive
  deriving DecidableEq, Repr

/-- Resolve the promise cell at index `i`. -/
def resolveAt (ps : List (PromiseVal α)) (i : Nat) (v : Option α) : List (PromiseVal α) :=
  ps.set i (PromiseVal.resolved v)

/-- One atomic event.  Events that are not enabled leave the state
unchanged.  `emit` follows lines 704-709: resolve the cell held by
`nextChunk`, then replace the variable with a fresh pending cell.
`finish` follows lines 710-713 on fulfillment; on rejection it has no
effect because no rejection handler is installed.  The reader events follow
the generator body at lines 693-699. -/
def streamStep (s : StreamState α β) : StreamEv → StreamState α β
  | StreamEv.emit =>
    match s.remaining with
    | [] => s
    | c :: rest =>
      if s.producerDone then s
      else
        { s with
          firstChunkSent := true
          promises := resolveAt s.promises s.nextChunkVar (some c) ++ [PromiseVal.pending]
          nextChunkVar := s.promises.length
          remaining := rest }
  | StreamEv.finish =>
    if s.producerDone then s
    else
      match s.remaining with
      | _ :: _ => s
      | [] =>
        match s.producerEnd with
        | ProducerEnd.success v =>
          { s with
            promises := resolveAt s.promises s.nextChunkVar none
            finalPromise := some v
            producerDone := true }
        | ProducerEnd.failure => { s with producerDone := true }
  | StreamEv.readerAwait =>
    match s.reader with
    | ReaderPhase.idle => { s with reader := ReaderPhase.waiting s.nextChunkVar }
    | _ => s
  | StreamEv.readerReceive =>
    match s.reader with
    | ReaderPhase.waiting p =>
      match s.promises.get? p with
      | some (PromiseVal.resolved (some c)) =>
        { s with received := s.received ++ [c], reader := ReaderPhase.idle }
      | some (PromiseVal.resolved none) => { s with reader := ReaderPhase.done }
      | _ => s
    | _ => s

/-- Run a schedule of events. -/
def streamRun (s : StreamState α β) (evs : List StreamEv) : StreamState α β :=
  evs.foldl streamStep s

/-! ## The `raw` getter (generate.ts, lines 274-276)

```
get raw(): unknown {
  return this.raw ?? this.custom;
}
```

`this.raw` inside the accessor body re-invokes the accessor itself.  We
embed the body as an expression and give it a fuel-indexed evaluator in
which `none` means the evaluation did not complete within the given
recursion depth; JS values are `Option α` with `none` playing null /
undefined, so `??` takes its right operand only when the left evaluates to
a nullish value. -/

/-- The expressions reachable from the getter body: the property reads
`this.raw` and `this.custom`, and nullish coalescing. -/
inductive RawExpr where
  | getRaw
  | getCustom
  | coalesce (a b : RawExpr)

/-- Fuel-indexed evaluation of `RawExpr` on a `GenerateResponse` whose
`custom` field holds `custom`.  Reading `raw` enters the accessor body
`this.raw ?? this.custom`; the result `none` means evaluation does not
complete at this depth. -/
def evalRawExpr (custom : Option α) : Nat → RawExpr → Option (Option α)
  | 0, _ => none
  | _ + 1, RawExpr.getCustom => some custom
  | n + 1, RawExpr.getRaw => evalRawExpr custom n (RawExpr.coalesce RawExpr.getRaw RawExpr.getCustom)
  | n + 1, RawExpr.coalesce a b =>
    match evalRawExpr custom n a with
    | none => none
    | some (some v) => some (some v)
    | some none => evalRawExpr custom n b

/-! ### List helper lemmas used by the streaming proofs -/

theorem getq_set_self (l : List γ) (i : Nat) (x : γ) (h : i < l.length) :
    (l.set i x).get? i = some x := by
  induction l generalizing i with
  | nil => simp at h
  | cons a t ih =>
    cases i with
    | zero => rfl
    | succ j => simpa using ih j (by simpa using h)

theorem getq_set_ne (l : List γ) (i j : Nat) (x : γ) (h : i ≠ j) :
    (l.set i x).get? j = l.get? j := by
  induction l generalizing i j with
  | nil => rfl
  | cons a t ih =>
    cases i with
    | zero =>
      cases j with
      | zero => exact absurd rfl h
      | succ m => rfl
    | succ n =>
      cases j with
      | zero => rfl
      | succ m => simpa using ih n m (fun hc => h (by rw [hc]))

theorem getq_append_lt (l t : List γ) (i : Nat) (h : i < l.length) :
    (l ++ t).get? i = l.get? i := by
  induction l generalizing i with
  | nil => simp at h
  | cons a u ih =>
    cases i with
    | zero => rfl
    | succ j => simpa using ih j (by simpa using h)

theorem getq_append_len (l : List γ) (x : γ) (t : List γ) :
    (l ++ x :: t).get? l.length = some x := by
  induction l with
  | nil => rfl
  | cons a u ih => simpa using ih

theorem set_append_len (l : List γ) (x y : γ) :
    (l ++ [x]).set l.length y = l ++ [y] := by
  induction l with
  | nil => rfl
  | cons a u ih => simp [List.set, ih]

theorem take_sublist_take (l : List γ) (m n : Nat) (h : m ≤ n) :
    (l.take m).Sublist (l.take n) := by
  have hm : l.take m = (l.take n).take m := by
    rw [List.take_take, Nat.min_eq_left h]
  rw [hm]
  exact List.take_sublist m (l.take n)

/-! ### C9: the `raw` getter never produces a value -/

theorem evalRawExpr_getRaw_none (custom : Option α) :
    ∀ n, evalRawExpr custom n RawExpr.getRaw = none ∧
      evalRawExpr custom n (RawExpr.coalesce RawExpr.getRaw RawExpr.getCustom) = none := by
  intro n
  induction n with
  | zero => exact ⟨rfl, rfl⟩
  | succ m ih =>
    refine ⟨?_, ?_⟩
    · show evalRawExpr custom m (RawExpr.coalesce RawExpr.getRaw RawExpr.getCustom) = none
      exact ih.2
    · show (match evalRawExpr custom m RawExpr.getRaw with
        | none => none
        | some (some v) => some (some v)
        | some none => evalRawExpr custom m RawExpr.getCustom) = none
      rw [ih.1]

/-- C9: for every `GenerateResponse`, reading the `raw` getter never produces
a value: the body `return this.raw ?? this.custom;` re-reads `this.raw`
itself, so evaluation does not complete at any recursion depth and the
`custom` fallback is unreachable (the evaluator returns `some` on every
completing evaluation, and it never does so for `getRaw`, whatever
`custom` holds). -/
theorem c9_raw_getter_diverges (α : Type) (custom : Option α) (fuel : Nat) :
    evalRawExpr custom fuel RawExpr.getRaw = none :=
  (evalRawExpr_getRaw_none custom fuel).1

/-! ### C1: paced delivery through the bridge

`pacedEvents` is the schedule in which the reader is already awaiting the
current `nextChunk` cell whenever the producer emits — the producer yields
to the event loop between chunks and the reader keeps pace (this is the
schedule the spec's `["a","b"]` example describes). -/

/-- The well-paced schedule for a producer that emits `cs` and then
fulfills: the reader awaits, one chunk arrives, the reader consumes it;
after the last chunk the producer fulfills and the reader sees the end
sentinel. -/
def pacedEvents : List α → List StreamEv
  | [] => [StreamEv.readerAwait, StreamEv.finish, StreamEv.readerReceive]
  | _ :: rest => StreamEv.readerAwait :: StreamEv.emit :: StreamEv.readerReceive :: pacedEvents rest

/-- Intermediate state of a paced run: chunks `pre` have been emitted and
all consumed, `rest` is still to come, the reader sits between iterations. -/
def pacedState (pre rest : List α) (v : β) : StreamState α β :=
  { promises := pre.map (fun c => PromiseVal.resolved (some c)) ++ [PromiseVal.pending]
    nextChunkVar := pre.length
    received := pre
    reader := ReaderPhase.idle
    finalPromise := none
    firstChunkSent := !pre.isEmpty
    remaining := rest
    producerEnd := ProducerEnd.success v
    producerDone := false
    initialResolved := true
    initialRejected := false }

theorem setup_eq_pacedState (cs : List α) (v : β) :
    generateStreamSetup cs (ProducerEnd.success v) = pacedState [] cs v := rfl

theorem paced_step_cons (pre : List α) (c : α) (rest : List α) (v : β) :
    streamRun (pacedState pre (c :: rest) v)
      [StreamEv.readerAwait, StreamEv.emit, StreamEv.readerReceive] =
      pacedState (pre ++ [c]) rest v := by
  have hlen : (pre.map (fun c => PromiseVal.resolved (some c))).length = pre.length :=
    List.length_map _ _
  have e1 : streamStep (pacedState pre (c :: rest) v) StreamEv.readerAwait
      = { pacedState pre (c :: rest) v with reader := ReaderPhase.waiting pre.length } := rfl
  have hset : (pre.map (fun c => PromiseVal.resolved (some c))
        ++ [PromiseVal.pending]).set pre.length (PromiseVal.resolved (some c))
      = pre.map (fun x => PromiseVal.resolved (some x)) ++ [PromiseVal.resolved (some c)] := by
    rw [← hlen]
    exact set_append_len _ _ _
  have e2 : streamStep
      { pacedState pre (c :: rest) v with reader := ReaderPhase.waiting pre.length }
      StreamEv.emit
      = { promises := pre.map (fun x => PromiseVal.resolved (some x))
            ++ [PromiseVal.resolved (some c), PromiseVal.pending]
          nextChunkVar := pre.length + 1
          received := pre
          reader := ReaderPhase.waiting pre.length
          finalPromise := none
          firstChunkSent := true
          remaining := rest
          producerEnd := ProducerEnd.success v
          producerDone := false
          initialResolved := true
          initialRejected := false } := by
    simp [streamStep, pacedState, resolveAt, hset]
  have hget : (pre.map (fun x => PromiseVal.resolved (some x))
        ++ [PromiseVal.resolved (some c), PromiseVal.pending]).get? pre.length
      = some (PromiseVal.resolved (some c)) := by
    have := getq_append_len (pre.map (fun x => PromiseVal.resolved (some x)))
      (PromiseVal.resolved (some c)) [PromiseVal.pending]
    rw [hlen] at this
    exact this
  have e3 : streamStep
      { promises := pre.map (fun x => PromiseVal.resolved (some x))
          ++ [PromiseVal.resolved (some c), PromiseVal.pending]
        nextChunkVar := pre.length + 1
        received := pre
        reader := ReaderPhase.waiting pre.length
        finalPromise := none
        firstChunkSent := true
        remaining := rest
        producerEnd := ProducerEnd.success v
        producerDone := false
        initialResolved := true
        initialRejected := false
        : StreamState α β }
      StreamEv.readerReceive
      = pacedState (pre ++ [c]) rest v := by
    simp only [streamStep]
    rw [hget]
    simp [pacedState, List.map_append]
  show streamStep (streamStep (streamStep (pacedState pre (c :: rest) v)
    StreamEv.readerAwait) StreamEv.emit) StreamEv.readerReceive = pacedState (pre ++ [c]) rest v
  rw [e1, e2, e3]

theorem paced_step_nil (pre : List α) (v : β) :
    streamRun (pacedState pre ([] : List α) v)
      [StreamEv.readerAwait, StreamEv.finish, StreamEv.readerReceive] =
      { promises := pre.map (fun c => PromiseVal.resolved (some c)) ++ [PromiseVal.resolved none]
        nextChunkVar := pre.length
        received := pre
        reader := ReaderPhase.done
        finalPromise := some v
        firstChunkSent := !pre.isEmpty
        remaining := []
        producerEnd := ProducerEnd.success v
        producerDone := true
        initialResolved := true
        initialRejected := false } := by
  have hlen : (pre.map (fun c => PromiseVal.resolved (some c))).length = pre.length :=
    List.length_map _ _
  have e1 : streamStep (pacedState pre ([] : List α) v) StreamEv.readerAwait
      = { pacedState pre ([] : List α) v with reader := ReaderPhase.waiting pre.length } := rfl
  have hset : (pre.map (fun c => PromiseVal.resolved (some c))
        ++ [PromiseVal.pending]).set pre.length (PromiseVal.resolved (none : Option α))
      = pre.map (fun x => PromiseVal.resolved (some x)) ++ [PromiseVal.resolved none] := by
    rw [← hlen]
    exact set_append_len _ _ _
  have e2 : streamStep
      { pacedState pre ([] : List α) v with reader := ReaderPhase.waiting pre.length }
      StreamEv.finish
      = { promises := pre.map (fun x => PromiseVal.resolved (some x))
            ++ [PromiseVal.resolved none]
          nextChunkVar := pre.length
          received := pre
          reader := ReaderPhase.waiting pre.length
          finalPromise := some v
          firstChunkSent := !pre.isEmpty
          remaining := []
          producerEnd := ProducerEnd.success v
          producerDone := true
          initialResolved := true
          initialRejected := false } := by
    simp [streamStep, pacedState, resolveAt, hset]
  have hget : (pre.map (fun x => PromiseVal.resolved (some x))
        ++ [PromiseVal.resolved (none : Option α)]).get? pre.length
      = some (PromiseVal.resolved none) := by
    have := getq_append_len (pre.map (fun x => PromiseVal.resolved (some x)))
      (PromiseVal.resolved (none : Option α)) []
    rw [hlen] at this
    exact this
  have e3 : streamStep
      { promises := pre.map (fun x => PromiseVal.resolved (some x))
          ++ [PromiseVal.resolved none]
        nextChunkVar := pre.length
        received := pre
        reader := ReaderPhase.waiting pre.length
        finalPromise := some v
        firstChunkSent := !pre.isEmpty
        remaining := []
        producerEnd := ProducerEnd.success v
        producerDone := true
        initialResolved := true
        initialRejected := false
        : StreamState α β }
      StreamEv.readerReceive
      = { promises := pre.map (fun c => PromiseVal.resolved (some c))
            ++ [PromiseVal.resolved none]
          nextChunkVar := pre.length
          received := pre
          reader := ReaderPhase.done
          finalPromise := some v
          firstChunkSent := !pre.isEmpty
          remaining := []
          producerEnd := ProducerEnd.success v
          producerDone := true
          initialResolved := true
          initialRejected := false } := by
    simp only [streamStep]
    rw [hget]
  show streamStep (streamStep (streamStep (pacedState pre ([] : List α) v)
    StreamEv.readerAwait) StreamEv.finish) StreamEv.readerReceive = _
  rw [e1, e2, e3]

theorem paced_run (rest : List α) (v : β) :
    ∀ pre : List α,
      (streamRun (pacedState pre rest v) (pacedEvents rest)).received = pre ++ rest ∧
      (streamRun (pacedState pre rest v) (pacedEvents rest)).reader = ReaderPhase.done ∧
      (streamRun (pacedState pre rest v) (pacedEvents rest)).finalPromise = some v := by
  induction rest with
  | nil =>
    intro pre
    rw [show pacedEvents ([] : List α)
        = [StreamEv.readerAwait, StreamEv.finish, StreamEv.readerReceive] from rfl]
    rw [paced_step_nil]
    exact ⟨by simp, rfl, rfl⟩
  | cons c rest ih =>
    intro pre
    have hsplit : pacedEvents (c :: rest)
        = [StreamEv.readerAwait, StreamEv.emit, StreamEv.readerReceive] ++ pacedEvents rest := rfl
    rw [hsplit]
    have hfold : streamRun (pacedState pre (c :: rest) v)
        ([StreamEv.readerAwait, StreamEv.emit, StreamEv.readerReceive] ++ pacedEvents rest)
        = streamRun (streamRun (pacedState pre (c :: rest) v)
            [StreamEv.readerAwait, StreamEv.emit, StreamEv.readerReceive]) (pacedEvents rest) := by
      unfold streamRun
      exact List.foldl_append _ _ _ _
    rw [hfold, paced_step_cons]
    rcases ih (pre ++ [c]) with ⟨h1, h2, h3⟩
    exact ⟨by rw [h1]; simp, h2, h3⟩

/-- C1 (amended): for every producer that emits `c1..cn` and then fulfills
with `v`, *provided each chunk is emitted while the reader is already
awaiting the current next-chunk cell* (the paced schedule), the reader
receives exactly `c1..cn` in emission order, the iteration terminates, and
the `response` promise resolves to `v`. -/
theorem c1_generateStream_paced_delivery (α β : Type) (cs : List α) (v : β) :
    (streamRun (generateStreamSetup cs (ProducerEnd.success v)) (pacedEvents cs)).received = cs ∧
    (streamRun (generateStreamSetup cs (ProducerEnd.success v)) (pacedEvents cs)).reader
      = ReaderPhase.done ∧
    (streamRun (generateStreamSetup cs (ProducerEnd.success v)) (pacedEvents cs)).finalPromise
      = some v := by
  rw [setup_eq_pacedState]
  simpa using paced_run cs v []

/-- C1 (counterexample): a producer that emits `"a"` and `"b"` in the same
turn (before the reader's continuation runs) and then fulfills with `"ab"`.
The reader terminates having received only `["a"]`: the cell holding `"b"`
was replaced in the `nextChunk` variable before the reader awaited again,
so the claimed "receives exactly c1..cn" fails even though the `response`
promise resolves to `"ab"`. -/
theorem c1_generateStream_drops_unawaited_chunk :
    (streamRun (generateStreamSetup ["a", "b"] (ProducerEnd.success "ab"))
      [StreamEv.readerAwait, StreamEv.emit, StreamEv.emit, StreamEv.finish,
        StreamEv.readerReceive, StreamEv.readerAwait, StreamEv.readerReceive]).received = ["a"] ∧
    (streamRun (generateStreamSetup ["a", "b"] (ProducerEnd.success "ab"))
      [StreamEv.readerAwait, StreamEv.emit, StreamEv.emit, StreamEv.finish,
        StreamEv.readerReceive, StreamEv.readerAwait, StreamEv.readerReceive]).received
      ≠ ["a", "b"] ∧
    (streamRun (generateStreamSetup ["a", "b"] (ProducerEnd.success "ab"))
      [StreamEv.readerAwait, StreamEv.emit, StreamEv.emit, StreamEv.finish,
        StreamEv.readerReceive, StreamEv.readerAwait, StreamEv.readerReceive]).reader
      = ReaderPhase.done ∧
    (streamRun (generateStreamSetup ["a", "b"] (ProducerEnd.success "ab"))
      [StreamEv.readerAwait, StreamEv.emit, StreamEv.emit, StreamEv.finish,
        StreamEv.readerReceive, StreamEv.readerAwait, StreamEv.readerReceive]).finalPromise
      = some "ab" := by
  refine ⟨by decide, by decide, by decide, by decide⟩

/-! ### Case evaluation lemmas for `streamStep`

Small rewriting lemmas unfolding one event under the hypotheses that pick
its branch; used by the invariant proofs below. -/

theorem streamStep_emit_nil (s : StreamState α β) (hrm : s.remaining = []) :
    streamStep s StreamEv.emit = s := by
  simp only [streamStep, hrm]

theorem streamStep_emit_done (s : StreamState α β) (hd : s.producerDone = true) :
    streamStep s StreamEv.emit = s := by
  cases hrm : s.remaining with
  | nil => simp only [streamStep, hrm]
  | cons c rest => simp only [streamStep, hrm, hd, if_true]

theorem streamStep_emit_cons (s : StreamState α β) (c : α) (rest : List α)
    (hrm : s.remaining = c :: rest) (hd : s.producerDone = false) :
    streamStep s StreamEv.emit =
      { s with
        firstChunkSent := true
        promises := resolveAt s.promises s.nextChunkVar (some c) ++ [PromiseVal.pending]
        nextChunkVar := s.promises.length
        remaining := rest } := by
  simp only [streamStep, hrm, hd, Bool.false_eq_true, if_false]

theorem streamStep_finish_done (s : StreamState α β) (hd : s.producerDone = true) :
    streamStep s StreamEv.finish = s := by
  simp only [streamStep, hd, if_true]

theorem streamStep_finish_cons (s : StreamState α β) (c : α) (rest : List α)
    (hrm : s.remaining = c :: rest) :
    streamStep s StreamEv.finish = s := by
  cases hd : s.producerDone with
  | true => simp only [streamStep, hd, if_true]
  | false => simp only [streamStep, hd, Bool.false_eq_true, if_false, hrm]

theorem streamStep_finish_success (s : StreamState α β) (v : β)
    (hd : s.producerDone = false) (hrm : s.remaining = [])
    (he : s.producerEnd = ProducerEnd.success v) :
    streamStep s StreamEv.finish =
      { s with
        promises := resolveAt s.promises s.nextChunkVar none
        finalPromise := some v
        producerDone := true } := by
  simp only [streamStep, hd, Bool.false_eq_true, if_false, hrm, he]

theorem streamStep_finish_failure (s : StreamState α β)
    (hd : s.producerDone = false) (hrm : s.remaining = [])
    (he : s.producerEnd = ProducerEnd.failure) :
    streamStep s StreamEv.finish = { s with producerDone := true } := by
  simp only [streamStep, hd, Bool.false_eq_true, if_false, hrm, he]

theorem streamStep_await_idle (s : StreamState α β) (hr : s.reader = ReaderPhase.idle) :
    streamStep s StreamEv.readerAwait = { s with reader := ReaderPhase.waiting s.nextChunkVar } := by
  simp only [streamStep, hr]

theorem streamStep_await_waiting (s : StreamState α β) (p : Nat)
    (hr : s.reader = ReaderPhase.waiting p) :
    streamStep s StreamEv.readerAwait = s := by
  simp only [streamStep, hr]

theorem streamStep_await_done (s : StreamState α β) (hr : s.reader = ReaderPhase.done) :
    streamStep s StreamEv.readerAwait = s := by
  simp only [streamStep, hr]

theorem streamStep_receive_idle (s : StreamState α β) (hr : s.reader = ReaderPhase.idle) :
    streamStep s StreamEv.readerReceive = s := by
  simp only [streamStep, hr]

theorem streamStep_receive_done (s : StreamState α β) (hr : s.reader = ReaderPhase.done) :
    streamStep s StreamEv.readerReceive = s := by
  simp only [streamStep, hr]

theorem streamStep_receive_chunk (s : StreamState α β) (p : Nat) (c : α)
    (hr : s.reader = ReaderPhase.waiting p)
    (hg : s.promises.get? p = some (PromiseVal.resolved (some c))) :
    streamStep s StreamEv.readerReceive =
      { s with received := s.received ++ [c], reader := ReaderPhase.idle } := by
  simp only [streamStep, hr, hg]

theorem streamStep_receive_sentinel (s : StreamState α β) (p : Nat)
    (hr : s.reader = ReaderPhase.waiting p)
    (hg : s.promises.get? p = some (PromiseVal.resolved none)) :
    streamStep s StreamEv.readerReceive = { s with reader := ReaderPhase.done } := by
  simp only [streamStep, hr, hg]

theorem streamStep_receive_pending (s : StreamState α β) (p : Nat)
    (hr : s.reader = ReaderPhase.waiting p)
    (hg : s.promises.get? p = some PromiseVal.pending) :
    streamStep s StreamEv.readerReceive = s := by
  simp only [streamStep, hr, hg]

theorem streamStep_receive_oob (s : StreamState α β) (p : Nat)
    (hr : s.reader = ReaderPhase.waiting p)
    (hg : s.promises.get? p = none) :
    streamStep s StreamEv.readerReceive = s := by
  simp only [streamStep, hr, hg]

/-! ### C2 / C3: a rejection of the `generate` promise is observed by nothing

`generate` is an `async function`, so `generate(...)` at line 702 never
throws synchronously and the surrounding `try`/`catch` (lines 701-721)
never fires; the `.then` handler at line 710 installs no rejection
handler.  After the producer fails, no end sentinel is ever written into
the promise chain and the final promise never settles, so the reader can
never terminate and the failure is never surfaced anywhere. -/

/-- After a producer failure: the producer has settled, the final promise
is unsettled, and no cell anywhere in the chain holds the end sentinel. -/
def NoEndSentinel (s : StreamState α β) : Prop :=
  s.producerDone = true ∧ s.finalPromise = none ∧
    PromiseVal.resolved (none : Option α) ∉ s.promises

theorem noEndSentinel_step (s : StreamState α β) (e : StreamEv) (h : NoEndSentinel s) :
    NoEndSentinel (streamStep s e) ∧
      ((streamStep s e).reader = ReaderPhase.done → s.reader = ReaderPhase.done) := by
  obtain ⟨hdone, hfin, hmem⟩ := h
  cases e with
  | emit =>
    rw [streamStep_emit_done s hdone]
    exact ⟨⟨hdone, hfin, hmem⟩, fun hh => hh⟩
  | finish =>
    rw [streamStep_finish_done s hdone]
    exact ⟨⟨hdone, hfin, hmem⟩, fun hh => hh⟩
  | readerAwait =>
    cases hr : s.reader with
    | idle =>
      rw [streamStep_await_idle s hr]
      exact ⟨⟨hdone, hfin, hmem⟩, fun hh => nomatch hh⟩
    | waiting p =>
      rw [streamStep_await_waiting s p hr]
      exact ⟨⟨hdone, hfin, hmem⟩, fun hh => hr ▸ hh⟩
    | done =>
      rw [streamStep_await_done s hr]
      exact ⟨⟨hdone, hfin, hmem⟩, fun hh => hr ▸ hh⟩
  | readerReceive =>
    cases hr : s.reader with
    | idle =>
      rw [streamStep_receive_idle s hr]
      exact ⟨⟨hdone, hfin, hmem⟩, fun hh => hr ▸ hh⟩
    | done =>
      rw [streamStep_receive_done s hr]
      exact ⟨⟨hdone, hfin, hmem⟩, fun hh => hr ▸ hh⟩
    | waiting p =>
      cases hg : s.promises.get? p with
      | none =>
        rw [streamStep_receive_oob s p hr hg]
        exact ⟨⟨hdone, hfin, hmem⟩, fun hh => hr ▸ hh⟩
      | some pv =>
        cases pv with
        | pending =>
          rw [streamStep_receive_pending s p hr hg]
          exact ⟨⟨hdone, hfin, hmem⟩, fun hh => hr ▸ hh⟩
        | resolved w =>
          cases w with
          | some c =>
            rw [streamStep_receive_chunk s p c hr hg]
            exact ⟨⟨hdone, hfin, hmem⟩, fun hh => nomatch hh⟩
          | none => exact absurd (List.get?_mem hg) hmem

theorem noEndSentinel_run (evs : List StreamEv) :
    ∀ s : StreamState α β, NoEndSentinel s → s.reader ≠ ReaderPhase.done →
      NoEndSentinel (streamRun s evs) ∧ (streamRun s evs).reader ≠ ReaderPhase.done := by
  induction evs with
  | nil => intro s h hr; exact ⟨h, hr⟩
  | cons e evs ih =>
    intro s h hr
    have hstep := noEndSentinel_step s e h
    have hr2 : (streamStep s e).reader ≠ ReaderPhase.done := fun hd => hr (hstep.2 hd)
    exact ih (streamStep s e) hstep.1 hr2

/-- C2 (code bug): a producer that emits `["a"]` and then rejects.  The
reader receives `["a"]`; afterwards, under *every* continuation of the
execution, the final promise stays unsettled and the reader never
terminates — the failure is silently dropped rather than surfaced as an
error record after the emitted chunks, because the `catch` at lines
714-721 cannot catch an asynchronous rejection and no rejection handler is
attached to the `generate(...)` promise. -/
theorem c2_producer_failure_after_chunk_is_dropped :
    (streamRun (generateStreamSetup ["a"] (ProducerEnd.failure : ProducerEnd String))
      [StreamEv.readerAwait, StreamEv.emit, StreamEv.readerReceive, StreamEv.finish]).received
      = ["a"] ∧
    (streamRun (generateStreamSetup ["a"] (ProducerEnd.failure : ProducerEnd String))
      [StreamEv.readerAwait, StreamEv.emit, StreamEv.readerReceive,
        StreamEv.finish]).firstChunkSent = true ∧
    ∀ evs : List StreamEv,
      (streamRun (streamRun (generateStreamSetup ["a"] (ProducerEnd.failure : ProducerEnd String))
        [StreamEv.readerAwait, StreamEv.emit, StreamEv.readerReceive, StreamEv.finish])
          evs).finalPromise = none ∧
      (streamRun (streamRun (generateStreamSetup ["a"] (ProducerEnd.failure : ProducerEnd String))
        [StreamEv.readerAwait, StreamEv.emit, StreamEv.readerReceive, StreamEv.finish])
          evs).reader ≠ ReaderPhase.done := by
  refine ⟨by decide, by decide, ?_⟩
  intro evs
  have h := noEndSentinel_run evs
    (streamRun (generateStreamSetup ["a"] (ProducerEnd.failure : ProducerEnd String))
      [StreamEv.readerAwait, StreamEv.emit, StreamEv.readerReceive, StreamEv.finish])
    ⟨by decide, by decide, by decide⟩ (by decide)
  exact ⟨h.1.2.1, h.2⟩

/-- Invariant for a run in which the producer fails without ever emitting:
the single allocated cell stays pending forever, so nothing whatsoever is
observable. -/
def AllPendingFailed (s : StreamState α β) : Prop :=
  (∀ p ∈ s.promises, p = PromiseVal.pending) ∧ s.remaining = [] ∧
    s.producerEnd = ProducerEnd.failure ∧ s.finalPromise = none ∧
    s.received = [] ∧ s.reader ≠ ReaderPhase.done

theorem allPendingFailed_step (s : StreamState α β) (e : StreamEv)
    (h : AllPendingFailed s) : AllPendingFailed (streamStep s e) := by
  obtain ⟨hp, hrm, hend, hfin, hrec, hrd⟩ := h
  cases e with
  | emit =>
    rw [streamStep_emit_nil s hrm]
    exact ⟨hp, hrm, hend, hfin, hrec, hrd⟩
  | finish =>
    cases hd : s.producerDone with
    | true =>
      rw [streamStep_finish_done s hd]
      exact ⟨hp, hrm, hend, hfin, hrec, hrd⟩
    | false =>
      rw [streamStep_finish_failure s hd hrm hend]
      exact ⟨hp, hrm, hend, hfin, hrec, hrd⟩
  | readerAwait =>
    cases hr : s.reader with
    | idle =>
      rw [streamStep_await_idle s hr]
      exact ⟨hp, hrm, hend, hfin, hrec, fun hh => nomatch hh⟩
    | waiting p =>
      rw [streamStep_await_waiting s p hr]
      exact ⟨hp, hrm, hend, hfin, hrec, hrd⟩
    | done =>
      rw [streamStep_await_done s hr]
      exact ⟨hp, hrm, hend, hfin, hrec, hrd⟩
  | readerReceive =>
    cases hr : s.reader with
    | idle =>
      rw [streamStep_receive_idle s hr]
      exact ⟨hp, hrm, hend, hfin, hrec, hrd⟩
    | done =>
      rw [streamStep_receive_done s hr]
      exact ⟨hp, hrm, hend, hfin, hrec, hrd⟩
    | waiting p =>
      cases hg : s.promises.get? p with
      | none =>
        rw [streamStep_receive_oob s p hr hg]
        exact ⟨hp, hrm, hend, hfin, hrec, hrd⟩
      | some pv =>
        have hpv := hp pv (List.get?_mem hg)
        subst hpv
        rw [streamStep_receive_pending s p hr hg]
        exact ⟨hp, hrm, hend, hfin, hrec, hrd⟩

theorem allPendingFailed_run (evs : List StreamEv) (s : StreamState α β)
    (h : AllPendingFailed s) : AllPendingFailed (streamRun s evs) := by
  induction evs generalizing s with
  | nil => exact h
  | cons e evs ih => exact ih (streamStep s e) (allPendingFailed_step s e h)

/-- C3 (code bug): a producer that rejects before emitting any chunk.  The
promise returned by `generateStream` still *resolves* with the
stream/response pair — line 723 runs synchronously in the executor and the
`catch` that would call `initialReject` is unreachable for an asynchronous
rejection — and thereafter, under every schedule, no chunk is ever
received, the `response` promise never settles, and the stream iteration
never terminates.  A caller that never consumes the stream observes no
error at all, contradicting the claimed direct rejection. -/
theorem c3_producer_failure_before_chunks_not_rejected :
    (generateStreamSetup ([] : List String)
      (ProducerEnd.failure : ProducerEnd String)).initialResolved = true ∧
    (generateStreamSetup ([] : List String)
      (ProducerEnd.failure : ProducerEnd String)).initialRejected = false ∧
    ∀ evs : List StreamEv,
      (streamRun (generateStreamSetup ([] : List String)
        (ProducerEnd.failure : ProducerEnd String)) evs).finalPromise = none ∧
      (streamRun (generateStreamSetup ([] : List String)
        (ProducerEnd.failure : ProducerEnd String)) evs).received = [] ∧
      (streamRun (generateStreamSetup ([] : List String)
        (ProducerEnd.failure : ProducerEnd String)) evs).reader ≠ ReaderPhase.done := by
  refine ⟨rfl, rfl, ?_⟩
  intro evs
  have h := allPendingFailed_run evs
    (generateStreamSetup ([] : List String) (ProducerEnd.failure : ProducerEnd String))
    ⟨by decide, rfl, rfl, rfl, rfl, by decide⟩
  exact ⟨h.2.2.2.1, h.2.2.2.2.1, h.2.2.2.2.2⟩

/-! ### C8: the received sequence is an in-order subsequence of the emitted one

The main invariant of the promise chain: after any schedule, the cells with
index `< k` (where `k` chunks have been emitted) hold exactly the emitted
chunks in emission order, the cell at index `k` is the one in the
`nextChunk` variable, and the reader's received list is an in-order
subsequence of the emitted prefix, bounded by the cell it last awaited. -/

theorem getq_drop (l : List γ) (n m : Nat) : (l.drop n).get? m = l.get? (n + m) := by
  induction l generalizing n with
  | nil => cases n <;> simp
  | cons a t ih =>
    cases n with
    | zero => simp
    | succ j =>
      have h1 : (a :: t).drop (j + 1) = t.drop j := rfl
      have h2 : j + 1 + m = (j + m) + 1 := by omega
      rw [h1, ih j, h2]
      rfl

theorem drop_succ_of_drop_cons (l : List γ) (k : Nat) (c : γ) (rest : List γ)
    (h : l.drop k = c :: rest) : l.drop (k + 1) = rest := by
  induction k generalizing l with
  | zero =>
    simp only [List.drop_zero] at h
    subst h
    rfl
  | succ j ih =>
    cases l with
    | nil => simp at h
    | cons a t =>
      have ht : t.drop j = c :: rest := h
      exact ih t ht

theorem lt_length_of_drop_cons (l : List γ) (k : Nat) (c : γ) (rest : List γ)
    (h : l.drop k = c :: rest) : k < l.length := by
  have hlen := congrArg List.length h
  rw [List.length_drop] at hlen
  simp only [List.length_cons] at hlen
  omega

/-- The reachability invariant of the bridge, relative to the producer's
chunk list `cs`.  `k` is the number of chunks emitted so far. -/
def StreamInv (cs : List α) (s : StreamState α β) : Prop :=
  ∃ k, k ≤ cs.length ∧
    s.remaining = cs.drop k ∧
    s.nextChunkVar = k ∧
    s.promises.length = k + 1 ∧
    (∀ i, i < k → s.promises.get? i = some (PromiseVal.resolved (cs.get? i))) ∧
    (s.producerDone = false → s.promises.get? k = some PromiseVal.pending) ∧
    (s.producerDone = true → s.remaining = []) ∧
    (s.promises.get? k = some PromiseVal.pending ∨
      s.promises.get? k = some (PromiseVal.resolved none)) ∧
    (∀ p, s.reader = ReaderPhase.waiting p → p ≤ k ∧ s.received.Sublist (cs.take p)) ∧
    s.received.Sublist (cs.take k)

theorem streamInv_init (cs : List α) (pend : ProducerEnd β) :
    StreamInv cs (generateStreamSetup cs pend) := by
  refine ⟨0, Nat.zero_le _, by simp [generateStreamSetup], rfl, rfl, ?_, ?_, ?_, ?_, ?_, ?_⟩
  · intro i hi; omega
  · intro _; rfl
  · intro h; simp [generateStreamSetup] at h
  · exact Or.inl rfl
  · intro p hp; simp [generateStreamSetup] at hp
  · simp [generateStreamSetup]

theorem streamInv_step (cs : List α) (s : StreamState α β) (e : StreamEv)
    (h : StreamInv cs s) : StreamInv cs (streamStep s e) := by
  obtain ⟨k, hk, hrem, hvar, hlen, hres, hpend, hdrm, htail, hwait, hrecv⟩ := h
  cases e with
  | emit =>
    cases hd : s.producerDone with
    | true =>
      rw [streamStep_emit_done s hd]
      exact ⟨k, hk, hrem, hvar, hlen, hres, hpend, hdrm, htail, hwait, hrecv⟩
    | false =>
      cases hrm : s.remaining with
      | nil =>
        rw [streamStep_emit_nil s hrm]
        exact ⟨k, hk, hrem, hvar, hlen, hres, hpend, hdrm, htail, hwait, hrecv⟩
      | cons c rest =>
        rw [streamStep_emit_cons s c rest hrm hd]
        have hdk : cs.drop k = c :: rest := by rw [← hrem, hrm]
        have hklt : k < cs.length := lt_length_of_drop_cons cs k c rest hdk
        have hcs : cs.get? k = some c := by
          have h0 := getq_drop cs k 0
          rw [hdk] at h0
          simpa using h0.symm
        have hrest : cs.drop (k + 1) = rest := drop_succ_of_drop_cons cs k c rest hdk
        have hsetlen : (resolveAt s.promises s.nextChunkVar (some c)).length = k + 1 := by
          rw [resolveAt, List.length_set, hlen]
        refine ⟨k + 1, by omega, by simpa using hrest.symm, by simpa using hlen, ?_, ?_, ?_, ?_, ?_, ?_, ?_⟩
        · show (resolveAt s.promises s.nextChunkVar (some c) ++ [PromiseVal.pending]).length = k + 1 + 1
          rw [List.length_append, hsetlen]
          rfl
        · intro i hi
          show (resolveAt s.promises s.nextChunkVar (some c) ++ [PromiseVal.pending]).get? i
            = some (PromiseVal.resolved (cs.get? i))
          rw [getq_append_lt _ _ i (by omega)]
          rcases Nat.lt_or_ge i k with hik | hik
          · rw [resolveAt, hvar, getq_set_ne _ _ _ _ (by omega)]
            exact hres i hik
          · have hik2 : i = k := by omega
            subst hik2
            rw [resolveAt, hvar, getq_set_self _ _ _ (by omega), hcs]
        · intro _
          show (resolveAt s.promises s.nextChunkVar (some c) ++ [PromiseVal.pending]).get? (k + 1)
            = some PromiseVal.pending
          rw [← hsetlen]
          exact getq_append_len _ _ _
        · intro hcontra
          simp [hd] at hcontra
        · left
          show (resolveAt s.promises s.nextChunkVar (some c) ++ [PromiseVal.pending]).get? (k + 1)
            = some PromiseVal.pending
          rw [← hsetlen]
          exact getq_append_len _ _ _
        · intro p hp
          obtain ⟨hp1, hp2⟩ := hwait p hp
          exact ⟨by omega, hp2⟩
        · exact hrecv.trans (take_sublist_take cs k (k + 1) (by omega))
  | finish =>
    cases hd : s.producerDone with
    | true =>
      rw [streamStep_finish_done s hd]
      exact ⟨k, hk, hrem, hvar, hlen, hres, hpend, hdrm, htail, hwait, hrecv⟩
    | false =>
      cases hrm : s.remaining with
      | cons c rest =>
        rw [streamStep_finish_cons s c rest hrm]
        exact ⟨k, hk, hrem, hvar, hlen, hres, hpend, hdrm, htail, hwait, hrecv⟩
      | nil =>
        cases hpe : s.producerEnd with
        | success v =>
          rw [streamStep_finish_success s v hd hrm hpe]
          refine ⟨k, hk, hrem, hvar, ?_, ?_, ?_, ?_, ?_, hwait, hrecv⟩
          · show (resolveAt s.promises s.nextChunkVar none).length = k + 1
            rw [resolveAt, List.length_set, hlen]
          · intro i hi
            show (resolveAt s.promises s.nextChunkVar none).get? i
              = some (PromiseVal.resolved (cs.get? i))
            rw [resolveAt, hvar, getq_set_ne _ _ _ _ (by omega)]
            exact hres i hi
          · intro hcontra
            simp at hcontra
          · intro _; exact hrm
          · right
            show (resolveAt s.promises s.nextChunkVar none).get? k
              = some (PromiseVal.resolved none)
            rw [resolveAt, hvar, getq_set_self _ _ _ (by omega)]
        | failure =>
          rw [streamStep_finish_failure s hd hrm hpe]
          exact ⟨k, hk, hrem, hvar, hlen, hres, fun hc => by simp at hc,
            fun _ => hrm, htail, hwait, hrecv⟩
  | readerAwait =>
    cases hr : s.reader with
    | idle =>
      rw [streamStep_await_idle s hr]
      refine ⟨k, hk, hrem, hvar, hlen, hres, hpend, hdrm, htail, ?_, hrecv⟩
      intro p hp
      have : p = k := by
        rw [hvar] at hp
        cases hp
        rfl
      subst this
      exact ⟨Nat.le_refl _, hrecv⟩
    | waiting p =>
      rw [streamStep_await_waiting s p hr]
      exact ⟨k, hk, hrem, hvar, hlen, hres, hpend, hdrm, htail,
        fun q hq => hwait q (hr ▸ hq), hrecv⟩
    | done =>
      rw [streamStep_await_done s hr]
      exact ⟨k, hk, hrem, hvar, hlen, hres, hpend, hdrm, htail,
        fun q hq => hwait q (hr ▸ hq), hrecv⟩
  | readerReceive =>
    cases hr : s.reader with
    | idle =>
      rw [streamStep_receive_idle s hr]
      exact ⟨k, hk, hrem, hvar, hlen, hres, hpend, hdrm, htail,
        fun q hq => hwait q (hr ▸ hq), hrecv⟩
    | done =>
      rw [streamStep_receive_done s hr]
      exact ⟨k, hk, hrem, hvar, hlen, hres, hpend, hdrm, htail,
        fun q hq => hwait q (hr ▸ hq), hrecv⟩
    | waiting p =>
      obtain ⟨hpk, hpsub⟩ := hwait p hr
      cases hg : s.promises.get? p with
      | none =>
        rw [streamStep_receive_oob s p hr hg]
        exact ⟨k, hk, hrem, hvar, hlen, hres, hpend, hdrm, htail,
          fun q hq => hwait q (hr ▸ hq), hrecv⟩
      | some pv =>
        cases pv with
        | pending =>
          rw [streamStep_receive_pending s p hr hg]
          exact ⟨k, hk, hrem, hvar, hlen, hres, hpend, hdrm, htail,
            fun q hq => hwait q (hr ▸ hq), hrecv⟩
        | resolved w =>
          cases w with
          | none =>
            rw [streamStep_receive_sentinel s p hr hg]
            refine ⟨k, hk, hrem, hvar, hlen, hres, hpend, hdrm, htail, ?_, hrecv⟩
            intro q hq
            simp at hq
          | some c =>
            have hplt : p < k := by
              rcases Nat.lt_or_ge p k with h1 | h1
              · exact h1
              · have hpk2 : p = k := by omega
                subst hpk2
                rcases htail with ht | ht
                · rw [hg] at ht; exact absurd ht (by simp)
                · rw [hg] at ht; exact absurd ht (by simp)
            have hcs : cs.get? p = some c := by
              have h1 := hres p hplt
              rw [hg] at h1
              have h3 : PromiseVal.resolved (some c) = PromiseVal.resolved (cs.get? p) :=
                Option.some.inj h1
              injection h3 with h4
              exact h4.symm
            rw [streamStep_receive_chunk s p c hr hg]
            have hext : (s.received ++ [c]).Sublist (cs.take (p + 1)) := by
              have hstep : cs.take (p + 1) = cs.take p ++ [c] := by
                have hcs2 : cs[p]? = some c := by
                  rw [← List.get?_eq_getElem?]
                  exact hcs
                rw [List.take_succ, hcs2]
                rfl
              rw [hstep]
              exact hpsub.append (List.Sublist.refl [c])
            refine ⟨k, hk, hrem, hvar, hlen, hres, hpend, hdrm, htail, ?_, ?_⟩
            · intro q hq
              simp at hq
            · exact hext.trans (take_sublist_take cs (p + 1) k (by omega))

theorem streamInv_run (evs : List StreamEv) (cs : List α) (s : StreamState α β)
    (h : StreamInv cs s) : StreamInv cs (streamRun s evs) := by
  induction evs generalizing s with
  | nil => exact h
  | cons e evs ih => exact ih (streamStep s e) (streamInv_step cs s e h)

/-- C8: under every schedule, the chunk sequence observed by the reader is
an in-order subsequence of the chunks the producer emitted — never
reordered — but not necessarily all of them: there is a schedule (two
callback invocations before the reader's continuation runs) in which a
chunk is permanently skipped even though the reader then terminates
normally. -/
theorem c8_received_subsequence_of_emitted :
    (∀ (α β : Type) (cs : List α) (pend : ProducerEnd β) (evs : List StreamEv),
      ((streamRun (generateStreamSetup cs pend) evs).received).Sublist cs) ∧
    (∃ evs : List StreamEv,
      (streamRun (generateStreamSetup ["x", "y"] (ProducerEnd.success "xy")) evs).reader
        = ReaderPhase.done ∧
      (streamRun (generateStreamSetup ["x", "y"] (ProducerEnd.success "xy")) evs).received
        = ["x"]) := by
  constructor
  · intro α β cs pend evs
    have h := streamInv_run evs cs (generateStreamSetup cs pend) (streamInv_init cs pend)
    obtain ⟨k, hk, _, _, _, _, _, _, _, _, hrecv⟩ := h
    exact hrecv.trans (List.take_sublist k cs)
  · refine ⟨[StreamEv.readerAwait, StreamEv.emit, StreamEv.emit, StreamEv.finish,
      StreamEv.readerReceive, StreamEv.readerAwait, StreamEv.readerReceive], ?_, ?_⟩
    · decide
    · decide

/-! ## Message assembly and the "at least one message" check

`toGenerateRequest` (generate.ts, lines 367-428) and `generate` (lines
532-639) assemble the request's message list with the same code: an
optional system message (lines 372-384 resp. 575-587), then
`options.messages` (385-387 resp. 588-590), then an optional prompt
message (388-400 resp. 591-603), and then throw
`'at least one message is required in generate request'` when the
assembled list is empty (401-403 resp. 605-607).  JS truthiness governs the
`if (options.system)` / `if (options.prompt)` guards: the empty string is
falsy, any `Part` object or array (even an empty array) is truthy, and
`if (options.messages)` accepts any present array including the empty one.
`inferRoleFromParts` lives in generateAction.ts, which is not among the
sources; it is abstracted as a function parameter `inferRole` (its value
never affects how many messages are assembled).  In `generate`, model
resolution (lines 543-555) and tool-reference conversion (lines 558-572)
run before the message check; the downstream model invocation
(`generateHelper`, external) is abstracted as the parameter `runModel`. -/

inductive Part where
  | text (s : String)
  | other (tag : String)
  deriving DecidableEq, Repr

structure MessageData where
  role : String
  content : List Part
  deriving DecidableEq, Repr

/-- The `string | Part | Part[]` union accepted for `system` and `prompt`. -/
inductive PartsArg where
  | str (s : String)
  | part (p : Part)
  | parts (ps : List Part)
  deriving DecidableEq, Repr

/-- JS truthiness of a `system`/`prompt` value: an empty string is falsy;
objects and arrays (even empty arrays) are truthy. -/
def PartsArg.truthy : PartsArg → Bool
  | PartsArg.str s => !(s == "")
  | PartsArg.part _ => true
  | PartsArg.parts _ => true

/-- `ModelArgument`: a plain name, an action object (has `__action`), or a
`ModelReference`. -/
inductive ModelArg where
  | name (s : String)
  | action (actionName : String)
  | ref (refName : String)
  deriving DecidableEq, Repr

/-- The id used in the `Model ... not found` message (lines 546-553). -/
def modelId : ModelArg → String
  | ModelArg.name s => s
  | ModelArg.action a => a
  | ModelArg.ref r => r

/-- `resolveModel` (lines 468-496): look up names and references in the
registry, pass action objects through.  `Registry.lookupAction` is an
external collaborator, abstracted as the map `lookup`. -/
def resolveModelAction (lookup : String → Option String) : ModelArg → Option String
  | ModelArg.name s => lookup ("/model/" ++ s)
  | ModelArg.action a => some a
  | ModelArg.ref r => lookup ("/model/" ++ r)

/-- A `ToolArgument` as classified by lines 560-571: a string name, an
action carrying `__action` metadata, a `ToolDefinition` with a `name`
field, or anything else (which throws). -/
inductive ToolArg where
  | named (s : String)
  | action (ty : String) (toolName : String)
  | withName (toolName : String)
  | malformed
  deriving DecidableEq, Repr

/-- The tool-to-action-ref conversion of lines 558-572 (the error message
in the source also interpolates the offending tool's JSON). -/
def toolRef : ToolArg → Except String String
  | ToolArg.named s => Except.ok ("/tool/" ++ s)
  | ToolArg.action ty n => Except.ok ("/" ++ ty ++ "/" ++ n)
  | ToolArg.withName n => Except.ok ("/tool/" ++ n)
  | ToolArg.malformed => Except.error "Unable to determine type of of tool"

/-- The fields of `GenerateOptions` that decide message assembly, model
resolution and tool conversion. -/
structure GenerateOptions where
  model : Option ModelArg
  system : Option PartsArg
  prompt : Option PartsArg
  messages : Option (List MessageData)
  tools : Option (List ToolArg)
  deriving DecidableEq, Repr

/-- The system message built at lines 372-384 / 575-587. -/
def systemMessageOf (inferRole : List Part → String) : PartsArg → MessageData
  | PartsArg.str s => { role := "system", content := [Part.text s] }
  | PartsArg.parts ps => { role := inferRole ps, content := ps }
  | PartsArg.part p => { role := inferRole [p], content := [p] }

/-- The prompt message built at lines 388-400 / 591-603. -/
def promptMessageOf (inferRole : List Part → String) : PartsArg → MessageData
  | PartsArg.str s => { role := "user", content := [Part.text s] }
  | PartsArg.parts ps => { role := inferRole ps, content := ps }
  | PartsArg.part p => { role := inferRole [p], content := [p] }

/-- The shared message-assembly code: system message (if truthy), then
`options.messages` (if present), then prompt message (if truthy). -/
def assembleMessages (inferRole : List Part → String) (o : GenerateOptions) :
    List MessageData :=
  (match o.system with
   | some a => if a.truthy then [systemMessageOf inferRole a] else []
   | none => []) ++
  (match o.messages with
   | some ms => ms
   | none => []) ++
  (match o.prompt with
   | some a => if a.truthy then [promptMessageOf inferRole a] else []
   | none => [])

def msgError : String := "at least one message is required in generate request"

/-- `toGenerateRequest` (lines 367-428), up to the point that decides the
claims: assemble the messages and throw when the list is empty.  Tool
resolution and output-format assembly (lines 404-427) run only after this
check and produce the remaining request fields. -/
def toGenerateRequest (inferRole : List Part → String) (o : GenerateOptions) :
    Except String (List MessageData) :=
  let messages := assembleMessages inferRole o
  if messages.length = 0 then Except.error msgError
  else Except.ok messages

/-- The params handed to the model run by `generate` (lines 609-629). -/
structure GenerateParams where
  model : String
  messages : List MessageData
  tools : List String
  deriving DecidableEq, Repr

/-- `generate` (lines 532-639): resolve the model (throwing
`'Model is required.'` / `'Model ... not found'`), convert tools, assemble
messages, throw the empty-message error, and otherwise invoke the model
pipeline (`runWithStreamingCallback`/`generateHelper`, abstracted as
`runModel`). -/
def generate (inferRole : List Part → String) (lookup : String → Option String)
    (runModel : GenerateParams → Except String γ) (o : GenerateOptions) :
    Except String γ :=
  match o.model with
  | none => Except.error "Model is required."
  | some m =>
    match resolveModelAction lookup m with
    | none => Except.error ("Model " ++ modelId m ++ " not found")
    | some act =>
      match (match o.tools with
             | some ts => ts.mapM toolRef
             | none => Except.ok []) with
      | Except.error e => Except.error e
      | Except.ok tools =>
        let messages := assembleMessages inferRole o
        if messages.length = 0 then Except.error msgError
        else runModel { model := act, messages := messages, tools := tools }

/-- The exact condition under which the assembled message list is empty:
`system` absent or the empty string, `messages` absent or the empty list,
and `prompt` absent or the empty string. -/
def noEffectiveMessages (o : GenerateOptions) : Bool :=
  (match o.system with
   | some a => ! a.truthy
   | none => true) &&
  (match o.messages with
   | some ms => ms.isEmpty
   | none => true) &&
  (match o.prompt with
   | some a => ! a.truthy
   | none => true)

theorem assembleMessages_eq_nil_iff (inferRole : List Part → String) (o : GenerateOptions) :
    assembleMessages inferRole o = [] ↔ noEffectiveMessages o = true := by
  obtain ⟨mo, sys, pr, msgs, tls⟩ := o
  cases sys with
  | none =>
    cases msgs with
    | none =>
      cases pr with
      | none => simp [assembleMessages, noEffectiveMessages]
      | some a => cases ha : a.truthy <;> simp [assembleMessages, noEffectiveMessages, ha]
    | some ms =>
      cases pr with
      | none =>
        cases ms <;> simp [assembleMessages, noEffectiveMessages]
      | some a =>
        cases ha : a.truthy <;> cases ms <;>
          simp [assembleMessages, noEffectiveMessages, ha]
  | some sa =>
    cases hs : sa.truthy with
    | false =>
      cases msgs with
      | none =>
        cases pr with
        | none => simp [assembleMessages, noEffectiveMessages, hs]
        | some a => cases ha : a.truthy <;> simp [assembleMessages, noEffectiveMessages, hs, ha]
      | some ms =>
        cases pr with
        | none => cases ms <;> simp [assembleMessages, noEffectiveMessages, hs]
        | some a =>
          cases ha : a.truthy <;> cases ms <;>
            simp [assembleMessages, noEffectiveMessages, hs, ha]
    | true =>
      cases msgs with
      | none =>
        cases pr with
        | none => simp [assembleMessages, noEffectiveMessages, hs]
        | some a => cases ha : a.truthy <;> simp [assembleMessages, noEffectiveMessages, hs, ha]
      | some ms =>
        cases pr with
        | none => cases ms <;> simp [assembleMessages, noEffectiveMessages, hs]
        | some a =>
          cases ha : a.truthy <;> cases ms <;>
            simp [assembleMessages, noEffectiveMessages, hs, ha]

/-- C10 (amended): the `'at least one message is required in generate
request'` error is thrown by `toGenerateRequest` — and by `generate`, once
its model resolves and its tools convert — exactly when `system` is absent
or the empty string, `messages` is absent or the *empty list*, and
`prompt` is absent or the empty string; in every other case the error is
not thrown and `generate` proceeds to the model invocation.  The error is
decided before and independently of the model pipeline (`runModel` is
universally quantified). -/
theorem c10_message_error_iff_no_effective_messages
    (γ : Type) (inferRole : List Part → String) (lookup : String → Option String)
    (runModel : GenerateParams → Except String γ) (o : GenerateOptions)
    (m : ModelArg) (act : String) (tools : List String)
    (hm : o.model = some m)
    (ha : resolveModelAction lookup m = some act)
    (ht : (match o.tools with
           | some ts => ts.mapM toolRef
           | none => Except.ok []) = Except.ok tools) :
    (toGenerateRequest inferRole o = Except.error msgError
      ↔ noEffectiveMessages o = true) ∧
    generate inferRole lookup runModel o =
      (if noEffectiveMessages o then Except.error msgError
       else runModel { model := act
                       messages := assembleMessages inferRole o
                       tools := tools }) := by
  have hiff : (assembleMessages inferRole o).length = 0 ↔ noEffectiveMessages o = true := by
    rw [List.length_eq_zero]
    exact assembleMessages_eq_nil_iff inferRole o
  constructor
  · unfold toGenerateRequest
    by_cases hz : (assembleMessages inferRole o).length = 0
    · simp only [hz, if_true]
      simp only [eq_self_iff_true, true_iff]
      exact hiff.mp hz
    · simp only [hz, if_false]
      constructor
      · intro hcontra; exact absurd hcontra (by simp)
      · intro hne; exact absurd (hiff.mpr hne) hz
  · unfold generate
    simp only [hm, ha, ht]
    by_cases hz : (assembleMessages inferRole o).length = 0
    · have hne := hiff.mp hz
      simp only [hz, if_true, hne]
    · have hne : noEffectiveMessages o = false := by
        cases hb : noEffectiveMessages o with
        | true => exact absurd (hiff.mpr hb) hz
        | false => rfl
      simp only [hz, if_false, hne]
      simp

/-- Sample role-inference function for the closed instances. -/
def inferRoleSample : List Part → String := fun _ => "user"

/-- Sample registry lookup for the closed instances. -/
def lookupSample : String → Option String := fun _ => some "modelAction"

/-- Sample model pipeline for the closed instances. -/
def runModelSample : GenerateParams → Except String Nat := fun p =>
  Except.ok p.messages.length

/-- Options whose `messages` field is *present* but holds the empty list,
with `system` and `prompt` absent. -/
def optionsEmptyMessages : GenerateOptions :=
  { model := some (ModelArg.name "gemini")
    system := none
    prompt := none
    messages := some []
    tools := none }

/-- C10 (counterexample): `messages` present as the empty list — so at
least one of `system`/`messages`/`prompt` is present — yet both
`toGenerateRequest` and `generate` still throw the
`'at least one message is required in generate request'` error, refuting
the claim that the error is thrown only when all three are absent. -/
theorem c10_empty_messages_list_counterexample :
    optionsEmptyMessages.messages ≠ none ∧
    toGenerateRequest inferRoleSample optionsEmptyMessages = Except.error msgError ∧
    generate inferRoleSample lookupSample runModelSample optionsEmptyMessages
      = Except.error msgError := by
  refine ⟨by decide, rfl, rfl⟩

/-- Options with an effective (non-empty-string) prompt. -/
def optionsWithPrompt : GenerateOptions :=
  { model := some (ModelArg.name "gemini")
    system := none
    prompt := some (PartsArg.str "hello")
    messages := none
    tools := none }

/-- C10 witness: the amended theorem applied at `optionsWithPrompt`, whose
hypotheses hold by computation; the error is not thrown there. -/
theorem c10_message_error_witness :
    (optionsWithPrompt.model = some (ModelArg.name "gemini") ∧
      resolveModelAction lookupSample (ModelArg.name "gemini") = some "modelAction" ∧
      (match optionsWithPrompt.tools with
       | some ts => ts.mapM toolRef
       | none => Except.ok []) = Except.ok ([] : List String)) ∧
    ((toGenerateRequest inferRoleSample optionsWithPrompt = Except.error msgError
        ↔ noEffectiveMessages optionsWithPrompt = true) ∧
      generate inferRoleSample lookupSample runModelSample optionsWithPrompt =
        (if noEffectiveMessages optionsWithPrompt then Except.error msgError
         else runModelSample { model := "modelAction"
                               messages := assembleMessages inferRoleSample optionsWithPrompt
                               tools := [] })) :=
  ⟨⟨rfl, rfl, rfl⟩,
    c10_message_error_iff_no_effective_messages Nat inferRoleSample lookupSample
      runModelSample optionsWithPrompt (ModelArg.name "gemini") "modelAction" []
      rfl rfl rfl⟩

/-! ## The `/api/streamAction` handler (server.ts, lines 63-77)

```
app.post('/api/streamAction', bodyParser.json(), async (req, res) => {
  ...
  const result = await runner.runAction({ key, input }, (chunk) => {
    res.write(JSON.stringify(chunk) + '\n');
  });
  res.write(JSON.stringify(result));
  res.end();
});
```

The response body is the concatenation of the handler's `res.write` calls:
one newline-terminated JSON record per callback invocation, in callback
order, then the serialized final result, then end-of-stream. -/

/-- An event of one `runAction` execution as observed by the handler: a
streaming-callback invocation, or the fulfillment of the returned
promise. -/
inductive ActionEv (χ ρ : Type) where
  | chunk (c : χ)
  | done (r : ρ)

/-- Modelled from the spec: `Runner.runAction` (the genkit-tools runner is
not among the sources) drives the action and invokes the provided
streaming callback once per emitted chunk, in order, before resolving with
the final record — "one final record containing the aggregated result or
an error".  Its behaviour observable by the handler is this event list. -/
def runActionEvents (chunks : List χ) (result : ρ) : List (ActionEv χ ρ) :=
  chunks.map ActionEv.chunk ++ [ActionEv.done result]

/-- One `res.write` call of the handler (lines 71-75): a callback chunk is
written as its serialization plus `'\n'`; the awaited final result is
written serialized, with no newline.  `serC`/`serR` stand for
`JSON.stringify`. -/
def writeEvent (serC : χ → String) (serR : ρ → String) (body : String) :
    ActionEv χ ρ → String
  | ActionEv.chunk c => body ++ (serC c ++ "\n")
  | ActionEv.done r => body ++ serR r

/-- The complete response body the handler produces for one action run. -/
def streamActionBody (serC : χ → String) (serR : ρ → String)
    (chunks : List χ) (result : ρ) : String :=
  (runActionEvents chunks result).foldl (writeEvent serC serR) ""

/-- The wire records: one self-delimited (newline-terminated) record per
chunk, in callback order, followed by exactly one final record. -/
def streamActionRecords (serC : χ → String) (serR : ρ → String)
    (chunks : List χ) (result : ρ) : List String :=
  (chunks.map fun c => serC c ++ "\n") ++ [serR result]

/-- Concatenation of records into a body. -/
def recordsConcat : List String → String
  | [] => ""
  | r :: rs => r ++ recordsConcat rs

theorem getq_map (f : χ → σ) (l : List χ) (i : Nat) :
    (l.map f).get? i = (l.get? i).map f := by
  induction l generalizing i with
  | nil => cases i <;> rfl
  | cons a t ih =>
    cases i with
    | zero => rfl
    | succ j => exact ih j

theorem string_append_empty (s : String) : s ++ "" = s := by
  apply String.ext
  simp

theorem streamActionBody_foldl (serC : χ → String) (serR : ρ → String) (r : ρ) :
    ∀ (cs : List χ) (b : String),
      (cs.map ActionEv.chunk ++ [ActionEv.done r]).foldl (writeEvent serC serR) b
        = b ++ recordsConcat ((cs.map fun c => serC c ++ "\n") ++ [serR r]) := by
  intro cs
  induction cs with
  | nil =>
    intro b
    show b ++ serR r = b ++ (serR r ++ "")
    rw [string_append_empty]
  | cons c cs ih =>
    intro b
    show (cs.map ActionEv.chunk ++ [ActionEv.done r]).foldl (writeEvent serC serR)
        (b ++ (serC c ++ "\n"))
      = b ++ ((serC c ++ "\n") ++ recordsConcat ((cs.map fun c => serC c ++ "\n") ++ [serR r]))
    rw [ih (b ++ (serC c ++ "\n"))]
    rw [String.append_assoc]

/-- C7: for every streamed action run through the `/api/streamAction`
handler, the response body is exactly the concatenation of one
newline-terminated record per callback invocation, in callback order,
followed by exactly one final record containing the action's final
(result-or-error) value, written after all chunk records. -/
theorem c7_streamAction_body_format (χ ρ : Type) (serC : χ → String) (serR : ρ → String)
    (chunks : List χ) (result : ρ) :
    streamActionBody serC serR chunks result
      = recordsConcat (streamActionRecords serC serR chunks result) ∧
    (streamActionRecords serC serR chunks result).length = chunks.length + 1 ∧
    (∀ i, i < chunks.length →
      (streamActionRecords serC serR chunks result).get? i
        = (chunks.get? i).map (fun c => serC c ++ "\n")) ∧
    (streamActionRecords serC serR chunks result).get? chunks.length
      = some (serR result) := by
  refine ⟨?_, ?_, ?_, ?_⟩
  · show (runActionEvents chunks result).foldl (writeEvent serC serR) ""
      = recordsConcat (streamActionRecords serC serR chunks result)
    rw [runActionEvents, streamActionBody_foldl serC serR result chunks ""]
    show "" ++ recordsConcat (streamActionRecords serC serR chunks result)
      = recordsConcat (streamActionRecords serC serR chunks result)
    apply String.ext
    simp
  · rw [streamActionRecords, List.length_append, List.length_map]
    rfl
  · intro i hi
    rw [streamActionRecords, getq_append_lt _ _ i (by rw [List.length_map]; exact hi)]
    exact getq_map _ _ _
  · rw [streamActionRecords]
    have h := getq_append_len (chunks.map fun c => serC c ++ "\n") (serR result) []
    rw [List.length_map] at h
    exact h

/-! ## Step memoization / flow engine — modelled from the spec

The StepMemoizer / SuspensionController / FlowEngine implementation
(`@genkit-ai/flow`: `run`, `interrupt`, `durableFlow`, the operation
store) is not among the sources — only flows calling it are (the `basic`,
`simpleFanout`, `kitchensink` samples).  The model below is modelled from
the spec:

* §3 StepRecord: key `(stepName, occurrenceIndex)`; the occurrence index
  disambiguates repeated calls to a step with the same name within one
  run and is assigned by counting prior occurrences of that name in the
  current execution; the outcome is frozen once written and the cursor
  only grows;
* §4.1 StepMemoizer: on a first occurrence of `(name, occurrenceIndex)`
  in the current execution, invoke `fn` and append a record; on a later
  occurrence found already present in `operation.cursor` (replay after
  resume), return the cached outcome without invoking `fn`;
* §4.2/§4.4 resume: verify the operation is suspended and the pending
  suspension matches the given name, record the supplied input as the
  suspension's outcome, and re-execute the flow body from the top so the
  memoizer replays the recorded prefix;
* §4.2/§5/§7: the `suspended → running` transition is a single-winner
  conditional update; the loser fails with `ConcurrentResumeConflict` and
  re-executes no steps; a failed resume leaves the record as it was.

Step functions are modelled as functions of the global invocation
counter, so a re-invocation is observable (it sees a larger counter). -/

inductive RecKind where
  | step
  | susp
  deriving DecidableEq, Repr

/-- One `cursor` entry: a memoized step or a completed suspension. -/
structure StepRecord where
  kind : RecKind
  name : String
  occ : Nat
  value : Nat
  deriving DecidableEq, Repr

/-- Flow-body statements: a memoized step `runStep(name, fn)` and a
suspension point (interrupt-style; the resume input becomes its value). -/
inductive Stmt where
  | step (name : String) (fn : Nat → Nat)
  | suspend (name : String)

/-- One executed call in the current execution's log: name, occurrence
index, observed value, and whether it was served from the cursor. -/
structure CallRes where
  name : String
  occ : Nat
  value : Nat
  cached : Bool
  deriving DecidableEq, Repr

/-- Occurrence index of the next call with name `n`: the number of prior
calls with that name in the current execution. -/
def occOf (log : List CallRes) (n : String) : Nat :=
  (log.filter (fun e => e.name == n)).length

/-- Lookup of a `(kind, name, occurrenceIndex)` key in the cursor. -/
def findRec (cur : List StepRecord) (k : RecKind) (n : String) (o : Nat) :
    Option StepRecord :=
  cur.find? (fun r => r.kind == k && r.name == n && r.occ == o)

structure ExecState where
  cursor : List StepRecord
  invocations : Nat
  callLog : List CallRes
  deriving Repr

inductive ExecOutcome where
  | completed (st : ExecState) (ret : Nat)
  | suspended (st : ExecState) (pendName : String) (pendOcc : Nat)
  deriving Repr

/-- Execute the flow body from the top over the current cursor (fresh run
and replay use the same code path).  The flow's return value is the last
observed call value. -/
def execBody : List Stmt → ExecState → ExecOutcome
  | [], st => ExecOutcome.completed st ((st.callLog.getLast?.map CallRes.value).getD 0)
  | Stmt.step n fn :: rest, st =>
    let o := occOf st.callLog n
    (match findRec st.cursor RecKind.step n o with
     | some r =>
       execBody rest { st with callLog := st.callLog ++ [⟨n, o, r.value, true⟩] }
     | none =>
       let v := fn st.invocations
       execBody rest
         { cursor := st.cursor ++ [⟨RecKind.step, n, o, v⟩]
           invocations := st.invocations + 1
           callLog := st.callLog ++ [⟨n, o, v, false⟩] })
  | Stmt.suspend n :: rest, st =>
    let o := occOf st.callLog n
    (match findRec st.cursor RecKind.susp n o with
     | some r =>
       execBody rest { st with callLog := st.callLog ++ [⟨n, o, r.value, true⟩] }
     | none => ExecOutcome.suspended st n o)

inductive OpStatus where
  | running
  | suspended
  | succeeded
  | failed
  deriving DecidableEq, Repr

/-- The persisted `Operation` record (§3). -/
structure Operation where
  status : OpStatus
  cursor : List StepRecord
  pending : Option (String × Nat)
  result : Option Nat
  deriving DecidableEq, Repr

/-- An operation plus the global side-effect counter observed by step
functions. -/
structure FlowWorld where
  op : Operation
  invocations : Nat
  deriving DecidableEq, Repr

/-- Persist an execution outcome as the operation's new state. -/
def finishExec (out : ExecOutcome) : FlowWorld × List CallRes :=
  match out with
  | ExecOutcome.completed st ret =>
    ({ op := { status := OpStatus.succeeded, cursor := st.cursor
               pending := none, result := some ret }
       invocations := st.invocations }, st.callLog)
  | ExecOutcome.suspended st n o =>
    ({ op := { status := OpStatus.suspended, cursor := st.cursor
               pending := some (n, o), result := none }
       invocations := st.invocations }, st.callLog)

/-- `start`: fresh operation, run the body from the top. -/
def startFlow (body : List Stmt) : FlowWorld × List CallRes :=
  finishExec (execBody body { cursor := [], invocations := 0, callLog := [] })

/-- The single-winner `suspended → running` conditional update. -/
def casAcquire (op : Operation) : Except String Operation :=
  if op.status = OpStatus.suspended then
    Except.ok { op with status := OpStatus.running }
  else Except.error "ConcurrentResumeConflict"

/-- Resume after a successful acquisition: verify the pending suspension's
name, append the supplied input as its outcome, and re-execute the body
from the top. -/
def resumeAcquired (body : List Stmt) (w : FlowWorld) (name : String) (input : Nat) :
    Except String (FlowWorld × List CallRes) :=
  match w.op.pending with
  | some (pn, po) =>
    if pn = name then
      Except.ok (finishExec (execBody body
        { cursor := w.op.cursor ++ [⟨RecKind.susp, pn, po, input⟩]
          invocations := w.invocations
          callLog := [] }))
    else Except.error "ResumeMismatch"
  | none => Except.error "ResumeMismatch"

/-- `resume(id, suspensionName, input)`. -/
def resumeFlow (body : List Stmt) (w : FlowWorld) (name : String) (input : Nat) :
    Except String (FlowWorld × List CallRes) :=
  match casAcquire w.op with
  | Except.error e => Except.error e
  | Except.ok op2 => resumeAcquired body { w with op := op2 } name input

/-- The world persisted after one resume attempt: the winner's outcome on
success; on a failed attempt the record is left exactly as it was (§7). -/
def singleResumeWorld (body : List Stmt) (w : FlowWorld) (name : String) (input : Nat) :
    FlowWorld :=
  match resumeFlow body w name input with
  | Except.ok (w2, _) => w2
  | Except.error _ => w

/-- Two concurrent `resume` calls racing on the same operation: both
attempt the conditional update before either body runs (the update is
atomic, so every interleaving is equivalent to one of the two orders,
chosen by `firstIsA`), and only the winner re-executes the flow body.
Returns (caller A's outcome, caller B's outcome, final persisted world). -/
def concurrentResume (body : List Stmt) (w : FlowWorld) (name : String) (input : Nat)
    (firstIsA : Bool) :
    Except String (FlowWorld × List CallRes) × Except String (FlowWorld × List CallRes)
      × FlowWorld :=
  match casAcquire w.op with
  | Except.error e => (Except.error e, Except.error e, w)
  | Except.ok op2 =>
    let loser : Except String (FlowWorld × List CallRes) :=
      match casAcquire op2 with
      | Except.error e => Except.error e
      | Except.ok op3 => resumeAcquired body { w with op := op3 } name input
    let winner := resumeAcquired body { w with op := op2 } name input
    let final : FlowWorld :=
      match winner with
      | Except.ok (w2, _) => w2
      | Except.error _ => w
    if firstIsA then (winner, loser, final) else (loser, winner, final)

/-- The C4 scenario's flow body: two `runStep` calls with the same name
`"a"` at different points, with a suspension in between.  The step
function receives the global invocation counter, so distinct invocations
are observable. -/
def body4 (f : Nat → Nat) : List Stmt :=
  [Stmt.step "a" f, Stmt.suspend "s", Stmt.step "a" f]

/-- C4 (amended): for the two-call-sites-one-name body, the fresh run
invokes `f` once (occurrence 0), suspends, and after resume the replayed
first call returns the cached value `f 0` from `operation.cursor` without
invoking `f`, while the second call site receives the fresh occurrence
index 1 and invokes `f` exactly once more — two invocations in total
across both executions, one per distinct `(name, occurrenceIndex)` key,
and never a re-invocation of an occurrence already recorded. -/
theorem c4_replay_per_occurrence_memoization (f : Nat → Nat) (input : Nat) :
    startFlow (body4 f)
      = (⟨⟨OpStatus.suspended, [⟨RecKind.step, "a", 0, f 0⟩], some ("s", 0), none⟩, 1⟩,
          [⟨"a", 0, f 0, false⟩]) ∧
    resumeFlow (body4 f) (startFlow (body4 f)).1 "s" input
      = Except.ok
          (⟨⟨OpStatus.succeeded,
              [⟨RecKind.step, "a", 0, f 0⟩, ⟨RecKind.susp, "s", 0, input⟩,
                ⟨RecKind.step, "a", 1, f 1⟩],
              none, some (f 1)⟩, 2⟩,
            [⟨"a", 0, f 0, true⟩, ⟨"s", 0, input, true⟩, ⟨"a", 1, f 1, false⟩]) :=
  ⟨rfl, rfl⟩

/-- C4 (counterexample): with `f` the identity on the invocation counter,
after resume the world's invocation count is `2`, not `1` — the second
call site gets occurrence index 1, is not found in the cursor, and invokes
`f` again — and the two call sites observe the different values `0` and
`1`, refuting both "invoked exactly once in total" and "both runStep calls
return the same cached value". -/
theorem c4_repeated_name_invokes_twice :
    resumeFlow (body4 (fun n => n)) (startFlow (body4 (fun n => n))).1 "s" 7
      = Except.ok
          (⟨⟨OpStatus.succeeded,
              [⟨RecKind.step, "a", 0, 0⟩, ⟨RecKind.susp, "s", 0, 7⟩,
                ⟨RecKind.step, "a", 1, 1⟩],
              none, some 1⟩, 2⟩,
            [⟨"a", 0, 0, true⟩, ⟨"s", 0, 7, true⟩, ⟨"a", 1, 1, false⟩]) ∧
    (2 : Nat) ≠ 1 ∧ (0 : Nat) ≠ 1 :=
  ⟨rfl, by decide, by decide⟩

theorem resumeAcquired_eq (body : List Stmt) (w : FlowWorld) (name : String)
    (input po : Nat) (hp : w.op.pending = some (name, po)) :
    resumeAcquired body w name input
      = Except.ok (finishExec (execBody body
          { cursor := w.op.cursor ++ [⟨RecKind.susp, name, po, input⟩]
            invocations := w.invocations
            callLog := [] })) := by
  unfold resumeAcquired
  rw [hp]
  simp

/-- C5: two concurrent resume calls against the same suspended operation -
in either CAS order, exactly one call succeeds (and equals the single
resume), the other fails with `ConcurrentResumeConflict` and executes no
steps, and the persisted world after both settle is exactly the one a
single successful resume produces. -/
theorem c5_concurrent_resume_single_winner (body : List Stmt) (w : FlowWorld)
    (name : String) (input : Nat) (ord : Bool) (po : Nat)
    (h : w.op.status = OpStatus.suspended)
    (hp : w.op.pending = some (name, po)) :
    (concurrentResume body w name input ord).1
      = (if ord then resumeFlow body w name input
         else Except.error "ConcurrentResumeConflict") ∧
    (concurrentResume body w name input ord).2.1
      = (if ord then Except.error "ConcurrentResumeConflict"
         else resumeFlow body w name input) ∧
    (∃ w2 log2, resumeFlow body w name input = Except.ok (w2, log2)) ∧
    (concurrentResume body w name input ord).2.2 = singleResumeWorld body w name input := by
  have hcas : casAcquire w.op = Except.ok { w.op with status := OpStatus.running } := by
    simp [casAcquire, h]
  have hcas2 : casAcquire { w.op with status := OpStatus.running }
      = Except.error "ConcurrentResumeConflict" := by
    simp [casAcquire]
  have hres : resumeAcquired body { w with op := { w.op with status := OpStatus.running } }
        name input
      = Except.ok (finishExec (execBody body
          { cursor := w.op.cursor ++ [⟨RecKind.susp, name, po, input⟩]
            invocations := w.invocations
            callLog := [] })) :=
    resumeAcquired_eq body { w with op := { w.op with status := OpStatus.running } }
      name input po hp
  have hflow : resumeFlow body w name input
      = Except.ok (finishExec (execBody body
          { cursor := w.op.cursor ++ [⟨RecKind.susp, name, po, input⟩]
            invocations := w.invocations
            callLog := [] })) := by
    rw [resumeFlow, hcas]
    exact hres
  refine ⟨?_, ?_, ?_, ?_⟩
  · rw [concurrentResume, hcas]
    cases ord with
    | true => simp [hres, hflow]
    | false => simp [hcas2]
  · rw [concurrentResume, hcas]
    cases ord with
    | true => simp [hcas2]
    | false => simp [hres, hflow]
  · rcases hE : finishExec (execBody body
        { cursor := w.op.cursor ++ [⟨RecKind.susp, name, po, input⟩]
          invocations := w.invocations
          callLog := [] }) with ⟨w2, log2⟩
    exact ⟨w2, log2, by rw [hflow, hE]⟩
  · rw [concurrentResume, hcas, singleResumeWorld, hflow]
    cases ord with
    | true => simp [hres]
    | false => simp [hres]

/-- A small suspending body for the closed C5 instance. -/
def body5 : List Stmt := [Stmt.step "a" (fun n => n), Stmt.suspend "s"]

/-- The world persisted when `body5`'s fresh run suspends. -/
def world5 : FlowWorld := (startFlow body5).1

/-- C5 witness: the single-winner theorem applied to the concrete suspended
`world5`, in the order where caller A's conditional update lands first. -/
theorem c5_single_winner_witness :
    (world5.op.status = OpStatus.suspended ∧ world5.op.pending = some ("s", 0)) ∧
    ((concurrentResume body5 world5 "s" 9 true).1
        = (if true then resumeFlow body5 world5 "s" 9
           else Except.error "ConcurrentResumeConflict") ∧
      (concurrentResume body5 world5 "s" 9 true).2.1
        = (if true then Except.error "ConcurrentResumeConflict"
           else resumeFlow body5 world5 "s" 9) ∧
      (∃ w2 log2, resumeFlow body5 world5 "s" 9 = Except.ok (w2, log2)) ∧
      (concurrentResume body5 world5 "s" 9 true).2.2
        = singleResumeWorld body5 world5 "s" 9) :=
  ⟨⟨by decide, by decide⟩,
    c5_concurrent_resume_single_winner body5 world5 "s" 9 true 0 (by decide) (by decide)⟩

/-! ## Fan-out executor — modelled from the spec (§4.3)

`runMap` / the FanOutExecutor implementation is not among the sources
(only the `simpleFanout` sample calling it is).  Modelled from the spec:
`map(items, concurrencyLimit, fn) -> results` launches up to
`concurrencyLimit` concurrent invocations of `fn` (in input order as slots
free up) and stores each invocation's outcome at the index of its input,
so `results[i]` corresponds to `items[i]` regardless of completion order.
The scheduler below picks an arbitrary order of launch and completion
events, subject to the concurrency bound. -/

/-- Executor state: `launched` items have been started (in input order),
`running` holds the indices currently in flight, `results` the filled
slots. -/
structure FanState (β : Type) where
  launched : Nat
  running : List Nat
  results : List (Option β)
  deriving DecidableEq, Repr

/-- Scheduler events: start the next item (subject to the concurrency
limit), or complete a running invocation. -/
inductive FanEv where
  | launch
  | complete (i : Nat)
  deriving DecidableEq, Repr

def fanInit (n : Nat) : FanState β :=
  { launched := 0, running := [], results := List.replicate n none }

/-- One scheduler event; events that are not enabled leave the state
unchanged.  A completion writes `fn items[i]` into slot `i` — the slot of
the input the invocation was launched for, not the completion rank. -/
def fanStep (items : List α) (limit : Nat) (fn : α → β) (s : FanState β) :
    FanEv → FanState β
  | FanEv.launch =>
    if s.launched < items.length ∧ s.running.length < limit then
      { s with launched := s.launched + 1, running := s.launched :: s.running }
    else s
  | FanEv.complete i =>
    if i ∈ s.running then
      match items.get? i with
      | some a =>
        { s with running := s.running.erase i, results := s.results.set i (some (fn a)) }
      | none => s
    else s

/-- Run a schedule. -/
def fanRun (items : List α) (limit : Nat) (fn : α → β) (evs : List FanEv) : FanState β :=
  evs.foldl (fanStep items limit fn) (fanInit items.length)

/-- The fan-out has completed: everything launched, nothing in flight. -/
def FanDone (items : List α) (s : FanState β) : Prop :=
  s.launched = items.length ∧ s.running = []

theorem getq_replicate (n i : Nat) (x : γ) (h : i < n) :
    (List.replicate n x).get? i = some x := by
  induction n generalizing i with
  | zero => omega
  | succ m ih =>
    cases i with
    | zero => rfl
    | succ j => exact ih j (by omega)

/-- The executor invariant: result slots are `none` while unlaunched or in
flight, and hold `fn items[i]` exactly when invocation `i` completed. -/
def FanInv (items : List α) (fn : α → β) (s : FanState β) : Prop :=
  s.results.length = items.length ∧
  s.launched ≤ items.length ∧
  s.running.Nodup ∧
  (∀ i ∈ s.running, i < s.launched) ∧
  (∀ i, i < s.launched → i ∉ s.running →
    s.results.get? i = (items.get? i).map (fun a => some (fn a))) ∧
  (∀ i, i < items.length → (s.launched ≤ i ∨ i ∈ s.running) →
    s.results.get? i = some none)

theorem fanInv_init (items : List α) (fn : α → β) :
    FanInv items fn (fanInit items.length) := by
  refine ⟨List.length_replicate _ _, Nat.zero_le _, List.nodup_nil, ?_, ?_, ?_⟩
  · intro i hi; simp [fanInit] at hi
  · intro i hi
    have hi0 : i < 0 := hi
    omega
  · intro i hi _
    exact getq_replicate _ _ _ hi

theorem fanInv_step (items : List α) (limit : Nat) (fn : α → β) (s : FanState β)
    (e : FanEv) (h : FanInv items fn s) : FanInv items fn (fanStep items limit fn s e) := by
  obtain ⟨hlen, hla, hnd, hrun, hdone, hpend⟩ := h
  cases e with
  | launch =>
    by_cases hg : s.launched < items.length ∧ s.running.length < limit
    · rw [fanStep, if_pos hg]
      show FanInv items fn
        { launched := s.launched + 1, running := s.launched :: s.running
          results := s.results }
      refine ⟨hlen, ?_, ?_, ?_, ?_, ?_⟩
      · show s.launched + 1 ≤ items.length
        omega
      · show (s.launched :: s.running).Nodup
        exact List.nodup_cons.mpr ⟨fun hc => by have := hrun _ hc; omega, hnd⟩
      · intro i hi
        show i < s.launched + 1
        rcases List.mem_cons.mp hi with hi | hi
        · omega
        · have := hrun i hi; omega
      · intro i hi hni
        have hi1 : i < s.launched + 1 := hi
        have hine : i ≠ s.launched := fun hc => hni (hc ▸ List.mem_cons_self _ _)
        have hi2 : i < s.launched := by omega
        exact hdone i hi2 (fun hc => hni (List.mem_cons_of_mem _ hc))
      · intro i hi hc
        rcases hc with hc | hc
        · have hc2 : s.launched + 1 ≤ i := hc
          exact hpend i hi (Or.inl (by omega))
        · rcases List.mem_cons.mp hc with hc | hc
          · exact hpend i hi (Or.inl (by omega))
          · exact hpend i hi (Or.inr hc)
    · rw [fanStep, if_neg hg]
      exact ⟨hlen, hla, hnd, hrun, hdone, hpend⟩
  | complete i =>
    by_cases hm : i ∈ s.running
    · have hil : i < s.launched := hrun i hm
      have hii : i < items.length := by omega
      rcases hga : items.get? i with _ | a
      · exfalso
        have := List.get?_eq_none.mp hga
        omega
      · rw [fanStep, if_pos hm, hga]
        show FanInv items fn
          { launched := s.launched, running := s.running.erase i
            results := s.results.set i (some (fn a)) }
        refine ⟨?_, hla, hnd.erase i, ?_, ?_, ?_⟩
        · show (s.results.set i (some (fn a))).length = items.length
          rw [List.length_set]; exact hlen
        · intro j hj
          exact hrun j (List.mem_of_mem_erase hj)
        · intro j hj hjn
          have hj2 : j < s.launched := hj
          by_cases hji : j = i
          · subst hji
            show (s.results.set j (some (fn a))).get? j = (items.get? j).map (fun a => some (fn a))
            rw [getq_set_self _ _ _ (by rw [hlen]; omega), hga]
            rfl
          · show (s.results.set i (some (fn a))).get? j = (items.get? j).map (fun a => some (fn a))
            rw [getq_set_ne _ _ _ _ (fun hc => hji hc.symm)]
            refine hdone j hj (fun hc => hjn ?_)
            exact (List.Nodup.mem_erase_iff hnd).mpr ⟨hji, hc⟩
        · intro j hj hc
          have hji : j ≠ i := by
            intro hji
            subst hji
            rcases hc with hc | hc
            · have hc2 : s.launched ≤ j := hc
              exact absurd hil (by omega)
            · exact ((List.Nodup.mem_erase_iff hnd).mp hc).1 rfl
          show (s.results.set i (some (fn a))).get? j = some none
          rw [getq_set_ne _ _ _ _ (fun hc2 => hji hc2.symm)]
          rcases hc with hc | hc
          · exact hpend j hj (Or.inl hc)
          · exact hpend j hj (Or.inr (List.mem_of_mem_erase hc))
    · have hstep : fanStep items limit fn s (FanEv.complete i) = s := by
        rw [fanStep, if_neg hm]
      rw [hstep]
      exact ⟨hlen, hla, hnd, hrun, hdone, hpend⟩

theorem fanInv_run (items : List α) (limit : Nat) (fn : α → β) (evs : List FanEv) :
    FanInv items fn (fanRun items limit fn evs) := by
  suffices h : ∀ s, FanInv items fn s → FanInv items fn (evs.foldl (fanStep items limit fn) s) by
    exact h (fanInit items.length) (fanInv_init items fn)
  induction evs with
  | nil => intro s hs; exact hs
  | cons e evs ih =>
    intro s hs
    exact ih (fanStep items limit fn s e) (fanInv_step items limit fn s e hs)

/-- C6: for every item list, every `concurrencyLimit ≥ 1`, every `fn`, and
every schedule under which the fan-out runs to completion — whatever order
the individual invocations complete in — `results[i]` holds exactly
`fn items[i]` for every index `i`. -/
theorem c6_fanout_preserves_input_order (α β : Type) (items : List α) (limit : Nat)
    (fn : α → β) (evs : List FanEv)
    (hlim : 1 ≤ limit)
    (hdone : FanDone items (fanRun items limit fn evs)) :
    ∀ i a, items.get? i = some a →
      (fanRun items limit fn evs).results.get? i = some (some (fn a)) := by
  intro i a ha
  obtain ⟨_, _, _, _, hcomp, _⟩ := fanInv_run items limit fn evs
  obtain ⟨hl, hr⟩ := hdone
  have hi : i < items.length := by
    rcases Nat.lt_or_ge i items.length with h2 | h2
    · exact h2
    · exfalso
      rw [List.get?_eq_none.mpr h2] at ha
      exact Option.noConfusion ha
  have := hcomp i (by omega) (by rw [hr]; exact List.not_mem_nil i)
  rw [ha] at this
  exact this

/-- The C6 example schedule: all three launched, then the *second* item's
invocation completes before the first's. -/
def fanSched : List FanEv :=
  [FanEv.launch, FanEv.launch, FanEv.launch,
    FanEv.complete 1, FanEv.complete 0, FanEv.complete 2]

/-- C6 witness: `map([3,1,2], concurrency=3, double)` over the schedule in
which item 1 finishes first still yields `[6,2,4]` slotwise. -/
theorem c6_fanout_witness :
    (1 ≤ 3) ∧
    FanDone [3, 1, 2] (fanRun [3, 1, 2] 3 (fun x => x * 2) fanSched) ∧
    (fanRun [3, 1, 2] 3 (fun x => x * 2) fanSched).results.get? 0 = some (some 6) ∧
    (fanRun [3, 1, 2] 3 (fun x => x * 2) fanSched).results.get? 1 = some (some 2) ∧
    (fanRun [3, 1, 2] 3 (fun x => x * 2) fanSched).results.get? 2 = some (some 4) :=
  ⟨by decide, by exact ⟨by decide, by decide⟩,
    c6_fanout_preserves_input_order Nat Nat [3, 1, 2] 3 (fun x => x * 2) fanSched
      (by decide) (by exact ⟨by decide, by decide⟩) 0 3 rfl,
    c6_fanout_preserves_input_order Nat Nat [3, 1, 2] 3 (fun x => x * 2) fanSched
      (by decide) (by exact ⟨by decide, by decide⟩) 1 1 rfl,
    c6_fanout_preserves_input_order Nat Nat [3, 1, 2] 3 (fun x => x * 2) fanSched
      (by decide) (by exact ⟨by decide, by decide⟩) 2 2 rfl⟩

end Genkit
